import Mathlib

/-!
Shallow embedding of the broadcast node from `src/src/bin/broadcast.rs`
(the gossip-based broadcast engine of the repository).

Values are `Finset ℕ` (the Rust `HashSet<usize>`), per-neighbor knowledge
is an association list (the Rust `HashMap<String, HashSet<usize>>`), and
the random number generator consulted by `rand::Rng::gen_ratio` is an
oracle of booleans, one per (neighbor, value) pair, so each element of a
sampled pool draws its own independent coin.  Panics (`expect`, `panic!`,
indexing a missing `HashMap` key, `gen_ratio` with a zero denominator or a
numerator above the denominator) become `Except.error` values.
-/

namespace Broadcast

/-- The `Payload` enum of `broadcast.rs` (lines 14-30). -/
inductive Payload where
  | Broadcast (message : ℕ)
  | BroadcastOk
  | Read
  | ReadOk (messages : Finset ℕ)
  | Topology (topology : List (String × List String))
  | TopologyOk
  | Gossip (seen : Finset ℕ)
  deriving DecidableEq

/-- The message body: optional msg id, optional in_reply_to, payload. -/
structure Body where
  id : Option ℕ
  in_reply_to : Option ℕ
  payload : Payload
  deriving DecidableEq

/-- The wire envelope `Message { src, dst, body }`. -/
structure Message where
  src : String
  dst : String
  body : Body
  deriving DecidableEq

/-- Events consumed by `step`: EOF, the injected gossip tick, or an
inbound protocol message. -/
inductive Event where
  | EOF
  | Injected
  | Message (m : Message)
  deriving DecidableEq

/-- The `BroadcastNode` state struct (lines 36-42). -/
structure BroadcastNode where
  node : String
  id : ℕ
  messages : Finset ℕ
  known : List (String × Finset ℕ)
  neighborhood : List String
  deriving DecidableEq

/-- Panics of the Rust code, made explicit. -/
inductive Err where
  | unknownNeighbor (n : String)
  | ratioPanic (n : String)
  | unknownGossipNode (n : String)
  | noTopologyEntry (n : String)
  deriving DecidableEq

/-- Lookup in a `HashMap` modelled as the first matching key of an association list. -/
def lookupAssoc {β : Type} (k : String) : List (String × β) → Option β
  | [] => none
  | (k', v) :: rest => if k' = k then some v else lookupAssoc k rest

/-- Mutation through `HashMap::get_mut`: replace the value of the first entry
whose key is `k`. -/
def updateAssoc {β : Type} (k : String) (v : β) : List (String × β) → List (String × β)
  | [] => []
  | (k', v') :: rest => if k' = k then (k, v) :: rest else (k', v') :: updateAssoc k v rest

/-- The state built by `BroadcastNode::from_init` (lines 61-71): id 1, empty value set, an
empty knowledge set for every cluster member, empty neighborhood. -/
def fromInit (node_id : String) (node_ids : List String) : BroadcastNode :=
  { node := node_id
    id := 1
    messages := ∅
    known := node_ids.map (fun nid => (nid, (∅ : Finset ℕ)))
    neighborhood := [] }

/-- Modelled from the spec: `Message::into_reply` lives in the library
crate, which is not under `src/`.  Per §4.1 of the spec, a reply inverts
`src`/`dst`, sets `in_reply_to` to the request's message id, and takes a
fresh id from the monotonic counter (the call site passes the counter, so
the id is always assigned and the counter incremented). -/
def into_reply (m : Message) (id : ℕ) : Message × ℕ :=
  (⟨m.dst, m.src, ⟨some id, m.body.id, m.body.payload⟩⟩, id + 1)

/-- Model of `rand::Rng::gen_ratio num den`: panics when `den = 0` or `num > den`,
returns `true` deterministically when `num = den`, and otherwise is a
biased coin, which we model as the supplied oracle bit. -/
def genRatioDraw (coin : Bool) (num den : ℕ) : Option Bool :=
  if den = 0 ∨ den < num then none
  else if num = den then some true
  else some coin

/-- One evaluation of the sampling closure of lines 97-102: for element `m`
of `pool`, `gen_ratio (min 10 pool.card) pool.card` with `m`'s coin. -/
def includeExtra (coins : ℕ → Bool) (pool : Finset ℕ) (m : ℕ) : Option Bool :=
  genRatioDraw (coins m) (min 10 pool.card) pool.card

/-- The random sample drawn by lines 97-102: each element of `pool` is kept
when its `gen_ratio` draw comes up true; if any draw would panic the whole
sampling step fails. -/
def sampleExtra (coins : ℕ → Bool) (pool : Finset ℕ) : Option (Finset ℕ) :=
  if ∀ m ∈ pool, (includeExtra coins pool m).isSome then
    some (pool.filter (fun m => (includeExtra coins pool m).getD false))
  else none

/-- The gossip payload built for one neighbor (lines 84-102).  The Rust
`partition(|m| !know_to_n.contains(m))` puts the values the neighbor does
NOT know into `already_known` and the values it DOES know into
`notify_of`; `notify_of` is then extended with the random sample drawn
from `already_known`. -/
def gossipPayload (coins : ℕ → Bool) (messages know_to_n : Finset ℕ) : Option (Finset ℕ) :=
  let already_known := messages.filter (fun m => m ∉ know_to_n)
  let notify_of := messages.filter (fun m => m ∈ know_to_n)
  (sampleExtra coins already_known).map (fun extra => notify_of ∪ extra)

/-- The loop over `self.neighborhood` in the tick handler (lines 82-115):
for each neighbor in stored order, look up its knowledge set (a missing
entry is the `self.known[n]` index panic), build the gossip payload, emit
a `Gossip` message with no ids, and bump the counter. -/
def tickLoop (coins : String → ℕ → Bool) (node : String) (messages : Finset ℕ)
    (known : List (String × Finset ℕ)) :
    List String → ℕ → Except Err (ℕ × List Message)
  | [], id => .ok (id, [])
  | n :: rest, id =>
    match lookupAssoc n known with
    | none => .error (.unknownNeighbor n)
    | some know_to_n =>
      match gossipPayload (coins n) messages know_to_n with
      | none => .error (.ratioPanic n)
      | some notify_of =>
        match tickLoop coins node messages known rest (id + 1) with
        | .error e => .error e
        | .ok (id', msgs) =>
          .ok (id', ⟨node, n, ⟨none, none, .Gossip notify_of⟩⟩ :: msgs)

/-- The transition function `BroadcastNode::step` (lines 73-152): the successor state and
the list of messages written to stdout, or the panic the Rust code hits. -/
def step (coins : String → ℕ → Bool) (s : BroadcastNode) (input : Event) :
    Except Err (BroadcastNode × List Message) :=
  match input with
  | .EOF => .ok (s, [])
  | .Injected =>
    match tickLoop coins s.node s.messages s.known s.neighborhood s.id with
    | .error e => .error e
    | .ok (id', msgs) => .ok ({ s with id := id' }, msgs)
  | .Message input =>
    let rp := into_reply input s.id
    let reply := rp.1
    let s := { s with id := rp.2 }
    match reply.body.payload with
    | .Gossip seen =>
      match lookupAssoc reply.dst s.known with
      | none => .error (.unknownGossipNode reply.dst)
      | some ks =>
        .ok ({ s with known := updateAssoc reply.dst (ks ∪ seen) s.known
                      messages := s.messages ∪ seen }, [])
    | .Broadcast message =>
      .ok ({ s with messages := insert message s.messages },
           [{ reply with body := { reply.body with payload := .BroadcastOk } }])
    | .Read =>
      .ok (s, [{ reply with body := { reply.body with payload := .ReadOk s.messages } }])
    | .Topology topology =>
      match lookupAssoc s.node topology with
      | none => .error (.noTopologyEntry s.node)
      | some nbrs =>
        .ok ({ s with neighborhood := nbrs },
             [{ reply with body := { reply.body with payload := .TopologyOk } }])
    | .BroadcastOk => .ok (s, [])
    | .ReadOk _ => .ok (s, [])
    | .TopologyOk => .ok (s, [])

/-- Run a list of events through `step`, collecting all output messages. -/
def steps (coins : String → ℕ → Bool) :
    BroadcastNode → List Event → Except Err (BroadcastNode × List Message)
  | s, [] => .ok (s, [])
  | s, e :: rest =>
    match step coins s e with
    | .error err => .error err
    | .ok (s', out) =>
      match steps coins s' rest with
      | .error err => .error err
      | .ok (s'', outs) => .ok (s'', out ++ outs)

/-- States reachable from some initialization by successful steps. -/
inductive Reachable : BroadcastNode → Prop
  | init (node_id : String) (node_ids : List String) :
      Reachable (fromInit node_id node_ids)
  | step (coins : String → ℕ → Bool) (s : BroadcastNode) (e : Event)
      (s' : BroadcastNode) (out : List Message) :
      Reachable s → step coins s e = .ok (s', out) → Reachable s'

/-- An all-false random oracle: every biased coin comes up `false`. -/
def coinsFalse : String → ℕ → Bool := fun _ _ => false

/-- A node knowing 11 values, none of which its sole neighbor `n2` is
believed to know. -/
def sC1 : BroadcastNode :=
  ⟨"n1", 1, Finset.range 11, [("n2", (∅ : Finset ℕ))], ["n2"]⟩

/-- A node knowing 11 values, all of which its sole neighbor `n2` is
believed to know. -/
def sC2 : BroadcastNode :=
  ⟨"n1", 1, Finset.range 11, [("n2", Finset.range 11)], ["n2"]⟩

deriving instance DecidableEq for Except

theorem genRatioDraw_isSome (coin : Bool) (num den : ℕ) (h1 : num ≤ den) (h2 : 0 < den) :
    (genRatioDraw coin num den).isSome := by
  unfold genRatioDraw
  rw [if_neg]
  · split <;> rfl
  · push_neg
    exact ⟨h2.ne', h1⟩

theorem includeExtra_isSome (coins : ℕ → Bool) (pool : Finset ℕ) (m : ℕ) (hm : m ∈ pool) :
    (includeExtra coins pool m).isSome :=
  genRatioDraw_isSome _ _ _ (min_le_right 10 pool.card) (Finset.card_pos.mpr ⟨m, hm⟩)

theorem sampleExtra_isSome (coins : ℕ → Bool) (pool : Finset ℕ) :
    (sampleExtra coins pool).isSome := by
  rw [sampleExtra, if_pos]
  · rfl
  · intro m hm
    exact includeExtra_isSome coins pool m hm

theorem gossipPayload_isSome (coins : ℕ → Bool) (messages know_to_n : Finset ℕ) :
    (gossipPayload coins messages know_to_n).isSome := by
  obtain ⟨extra, hex⟩ :=
    Option.isSome_iff_exists.mp
      (sampleExtra_isSome coins (messages.filter (fun m => m ∉ know_to_n)))
  rw [gossipPayload]
  rw [hex]
  rfl

theorem tickLoop_error_shape (coins : String → ℕ → Bool) (node : String)
    (messages : Finset ℕ) (known : List (String × Finset ℕ)) :
    ∀ (ns : List String) (id : ℕ) (e : Err),
      tickLoop coins node messages known ns id = .error e →
      ∃ n, e = .unknownNeighbor n := by
  intro ns
  induction ns with
  | nil => intro id e h; simp [tickLoop] at h
  | cons n rest ih =>
    intro id e h
    rw [tickLoop] at h
    split at h
    · exact ⟨n, ((Except.error.injEq _ _).mp h).symm⟩
    next know_to_n hk =>
      split at h
      next hg =>
        have := gossipPayload_isSome (coins n) messages know_to_n
        rw [hg] at this
        exact absurd this (by simp)
      next notify_of hg =>
        split at h
        next e' ht =>
          obtain ⟨n', hn'⟩ := ih (id + 1) e' ht
          rw [← (Except.error.injEq _ _).mp h, hn']
          exact ⟨n', rfl⟩
        next p ht => exact absurd h (by simp)

theorem tickLoop_ok_out (coins : String → ℕ → Bool) (node : String) (messages : Finset ℕ)
    (known : List (String × Finset ℕ)) :
    ∀ (ns : List String) (id id' : ℕ) (out : List Message),
      tickLoop coins node messages known ns id = .ok (id', out) →
      out.map Message.dst = ns ∧
      ∀ g ∈ out, g.src = node ∧ g.body.id = none ∧ g.body.in_reply_to = none := by
  intro ns
  induction ns with
  | nil =>
    intro id id' out h
    rw [tickLoop] at h
    obtain ⟨h1, h2⟩ := (by simpa using h : id = id' ∧ [] = out)
    subst h2
    simp
  | cons n rest ih =>
    intro id id' out h
    rw [tickLoop] at h
    split at h
    · exact absurd h (by simp)
    next know_to_n hk =>
      split at h
      next hg => exact absurd h (by simp)
      next notify_of hg =>
        split at h
        next e' ht => exact absurd h (by simp)
        next id2 msgs ht =>
          obtain ⟨h1, h2⟩ :=
            (by simpa using h :
              id2 = id' ∧
                ({ src := node, dst := n,
                   body := { id := none, in_reply_to := none,
                             payload := Payload.Gossip notify_of } } : Message) :: msgs = out)
          obtain ⟨hmap, hall⟩ := ih (id + 1) id2 msgs ht
          subst h2
          refine ⟨by simpa using hmap, ?_⟩
          intro g hg'
          rcases List.mem_cons.mp hg' with hg1 | hg2
          · subst hg1; exact ⟨rfl, rfl, rfl⟩
          · exact hall g hg2

theorem step_messages_mono (coins : String → ℕ → Bool) (s : BroadcastNode) (e : Event)
    (s' : BroadcastNode) (out : List Message)
    (h : step coins s e = .ok (s', out)) : s.messages ⊆ s'.messages := by
  cases e with
  | EOF =>
    obtain ⟨h1, h2⟩ := (by simpa [step] using h : s = s' ∧ [] = out)
    subst h1
    exact Finset.Subset.refl _
  | Injected =>
    rw [step] at h
    split at h
    · exact absurd h (by simp)
    next id' msgs ht =>
      obtain ⟨h1, h2⟩ := (by simpa using h : { s with id := id' } = s' ∧ msgs = out)
      subst h1
      exact Finset.Subset.refl _
  | Message m =>
    obtain ⟨src, dst, mid, irt, p⟩ := m
    cases p with
    | Broadcast v =>
      simp only [step, into_reply, Except.ok.injEq, Prod.mk.injEq] at h
      obtain ⟨h1, h2⟩ := h
      rw [← h1]
      exact Finset.subset_insert _ _
    | BroadcastOk =>
      simp only [step, into_reply, Except.ok.injEq, Prod.mk.injEq] at h
      rw [← h.1]
    | ReadOk ms =>
      simp only [step, into_reply, Except.ok.injEq, Prod.mk.injEq] at h
      rw [← h.1]
    | TopologyOk =>
      simp only [step, into_reply, Except.ok.injEq, Prod.mk.injEq] at h
      rw [← h.1]
    | Read =>
      simp only [step, into_reply, Except.ok.injEq, Prod.mk.injEq] at h
      rw [← h.1]
    | Gossip seen =>
      simp only [step, into_reply] at h
      split at h
      · exact absurd h (by simp)
      next ks hk =>
        simp only [Except.ok.injEq, Prod.mk.injEq] at h
        rw [← h.1]
        exact Finset.subset_union_left
    | Topology topo =>
      simp only [step, into_reply] at h
      split at h
      · exact absurd h (by simp)
      next nbrs hk =>
        simp only [Except.ok.injEq, Prod.mk.injEq] at h
        rw [← h.1]

theorem lookupAssoc_mem {β : Type} (k : String) (l : List (String × β)) (v : β)
    (h : lookupAssoc k l = some v) : (k, v) ∈ l := by
  induction l with
  | nil => simp [lookupAssoc] at h
  | cons q rest ih =>
    obtain ⟨k', v'⟩ := q
    rw [lookupAssoc] at h
    split at h
    next hk =>
      obtain rfl := (Option.some.injEq _ _).mp h
      subst hk
      exact List.mem_cons_self _ _
    next hk => exact List.mem_cons_of_mem _ (ih h)

theorem updateAssoc_mem {β : Type} (k : String) (v : β) (l : List (String × β))
    (p : String × β) (h : p ∈ updateAssoc k v l) : p = (k, v) ∨ p ∈ l := by
  induction l with
  | nil => simp [updateAssoc] at h
  | cons q rest ih =>
    obtain ⟨k', v'⟩ := q
    rw [updateAssoc] at h
    split at h
    next hk =>
      rcases List.mem_cons.mp h with h1 | h2
      · exact Or.inl h1
      · exact Or.inr (List.mem_cons_of_mem _ h2)
    next hk =>
      rcases List.mem_cons.mp h with h1 | h2
      · exact Or.inr (h1 ▸ List.mem_cons_self _ _)
      · rcases ih h2 with h3 | h4
        · exact Or.inl h3
        · exact Or.inr (List.mem_cons_of_mem _ h4)

theorem step_preserves_inv (coins : String → ℕ → Bool) (s : BroadcastNode) (e : Event)
    (s' : BroadcastNode) (out : List Message)
    (h : step coins s e = .ok (s', out))
    (hinv : ∀ p ∈ s.known, p.2 ⊆ s.messages) :
    ∀ p ∈ s'.known, p.2 ⊆ s'.messages := by
  cases e with
  | EOF =>
    obtain ⟨h1, h2⟩ := (by simpa [step] using h : s = s' ∧ [] = out)
    subst h1
    exact hinv
  | Injected =>
    rw [step] at h
    split at h
    · exact absurd h (by simp)
    next id' msgs ht =>
      obtain ⟨h1, h2⟩ := (by simpa using h : { s with id := id' } = s' ∧ msgs = out)
      subst h1
      exact hinv
  | Message m =>
    obtain ⟨src, dst, mid, irt, p⟩ := m
    cases p with
    | Broadcast v =>
      simp only [step, into_reply, Except.ok.injEq, Prod.mk.injEq] at h
      rw [← h.1]
      intro q hq
      exact (hinv q hq).trans (Finset.subset_insert _ _)
    | BroadcastOk =>
      simp only [step, into_reply, Except.ok.injEq, Prod.mk.injEq] at h
      rw [← h.1]
      exact hinv
    | ReadOk ms =>
      simp only [step, into_reply, Except.ok.injEq, Prod.mk.injEq] at h
      rw [← h.1]
      exact hinv
    | TopologyOk =>
      simp only [step, into_reply, Except.ok.injEq, Prod.mk.injEq] at h
      rw [← h.1]
      exact hinv
    | Read =>
      simp only [step, into_reply, Except.ok.injEq, Prod.mk.injEq] at h
      rw [← h.1]
      exact hinv
    | Topology topo =>
      simp only [step, into_reply] at h
      split at h
      · exact absurd h (by simp)
      next nbrs hk =>
        simp only [Except.ok.injEq, Prod.mk.injEq] at h
        rw [← h.1]
        exact hinv
    | Gossip seen =>
      simp only [step, into_reply] at h
      split at h
      · exact absurd h (by simp)
      next ks hk =>
        simp only [Except.ok.injEq, Prod.mk.injEq] at h
        rw [← h.1]
        intro q hq
        rcases updateAssoc_mem _ _ _ _ hq with h1 | h2
        · rw [h1]
          exact Finset.union_subset_union_left (hinv _ (lookupAssoc_mem _ _ _ hk))
        · exact (hinv q h2).trans Finset.subset_union_left

theorem reachable_known_subset (s : BroadcastNode) (h : Reachable s) :
    ∀ p ∈ s.known, p.2 ⊆ s.messages := by
  induction h with
  | init node_id node_ids =>
    intro p hp
    simp only [fromInit, List.mem_map] at hp
    obtain ⟨nid, _, rfl⟩ := hp
    simp
  | step coins s e s' out hr hstep ih =>
    exact step_preserves_inv coins s e s' out hstep ih


/-- What claim C1 says the tick payload is, following the spec words: the
difference KnownValues minus NeighborKnowledge[n], augmented with a random
sample drawn from the pool of values already believed known to `n`. -/
def specGossipPayload (coins : ℕ → Bool) (messages know_to_n : Finset ℕ) : Option (Finset ℕ) :=
  let pool := messages.filter (fun m => m ∈ know_to_n)
  (sampleExtra coins pool).map (fun extra => messages.filter (fun m => m ∉ know_to_n) ∪ extra)

/-- The initial state of node `n1` in a two-node cluster. -/
def sInit : BroadcastNode := fromInit "n1" ["n1", "n2"]

/-- A state of node `n1` that already knows the value 5. -/
def sDup : BroadcastNode := ⟨"n1", 1, {5}, [("n1", ∅), ("n2", ∅)], []⟩

/-- C1: the claim says each tick sends neighbor `n` the set KnownValues
minus NeighborKnowledge[n] plus a capped random sample of the pool already
known to `n`.  The code has the partition inverted: on the state `sC1`
(11 known values, neighbor `n2` believed to know none of them) with every
coin false, the code sends the empty payload, while the payload the claim
describes is all 11 values (`specGossipPayload` renders the claim words). -/
theorem gossip_tick_payload_inverted :
    step coinsFalse sC1 .Injected =
      .ok ({ sC1 with id := 2 }, [⟨"n1", "n2", ⟨none, none, .Gossip ∅⟩⟩]) ∧
    specGossipPayload (coinsFalse "n2") sC1.messages ∅ = some (Finset.range 11) ∧
    (∅ : Finset ℕ) ≠ Finset.range 11 := by decide

/-- C2: the claim bounds the per-neighbor tick payload by
(unknown-to-neighbor count) + min(10, known-to-neighbor count).  On the
state `sC2` (11 known values, all already in NeighborKnowledge[n2]) the
code sends all 11 values, exceeding the claimed bound 0 + min(10, 11) = 10. -/
theorem gossip_tick_volume_unbounded :
    step coinsFalse sC2 .Injected =
      .ok ({ sC2 with id := 2 }, [⟨"n1", "n2", ⟨none, none, .Gossip (Finset.range 11)⟩⟩]) ∧
    ¬((Finset.range 11).card ≤
        (sC2.messages \ Finset.range 11).card + min 10 (sC2.messages ∩ Finset.range 11).card) := by
  decide

/-- C3: for every reachable state and every event the step function
completes on, the KnownValues set after the step is a superset of the set
before it. -/
theorem knownValues_monotone (coins : String → ℕ → Bool) (s : BroadcastNode) (e : Event)
    (s' : BroadcastNode) (out : List Message) (hr : Reachable s)
    (h : step coins s e = .ok (s', out)) : s.messages ⊆ s'.messages :=
  step_messages_mono coins s e s' out h

theorem knownValues_monotone_witness :
    (fromInit "n1" ["n1"]).messages ⊆
      ((⟨"n1", 2, {5}, [("n1", ∅)], []⟩ : BroadcastNode)).messages :=
  knownValues_monotone coinsFalse (fromInit "n1" ["n1"])
    (.Message ⟨"c0", "n1", ⟨some 7, none, .Broadcast 5⟩⟩)
    ⟨"n1", 2, {5}, [("n1", ∅)], []⟩ [⟨"n1", "c0", ⟨some 1, some 7, .BroadcastOk⟩⟩]
    (Reachable.init "n1" ["n1"]) (by decide)

/-- C4: handling Broadcast(v) with v already in KnownValues leaves
KnownValues unchanged and still emits a BroadcastOk reply; a Gossip whose
seen set is already contained in KnownValues likewise leaves KnownValues
unchanged. -/
theorem broadcast_insert_idempotent :
    (∀ (coins : String → ℕ → Bool) (s : BroadcastNode) (m : Message) (v : ℕ),
        m.body.payload = .Broadcast v → v ∈ s.messages →
        ∃ s' r, step coins s (.Message m) = .ok (s', [r]) ∧
          s'.messages = s.messages ∧ r.body.payload = .BroadcastOk) ∧
    (∀ (coins : String → ℕ → Bool) (s : BroadcastNode) (m : Message)
        (seen ks : Finset ℕ),
        m.body.payload = .Gossip seen → seen ⊆ s.messages →
        lookupAssoc m.src s.known = some ks →
        ∃ s', step coins s (.Message m) = .ok (s', []) ∧ s'.messages = s.messages) := by
  constructor
  · intro coins s m v hp hv
    obtain ⟨src, dst, mid, irt, p⟩ := m
    obtain rfl : p = .Broadcast v := hp
    refine ⟨_, _, rfl, ?_, rfl⟩
    simpa using Finset.insert_eq_self.mpr hv
  · intro coins s m seen ks hp hsub hk
    obtain ⟨src, dst, mid, irt, p⟩ := m
    obtain rfl : p = .Gossip seen := hp
    have hk' : lookupAssoc src s.known = some ks := hk
    refine ⟨({ s with
               id := s.id + 1
               known := updateAssoc src (ks ∪ seen) s.known
               messages := s.messages ∪ seen } : BroadcastNode), ?_, ?_⟩
    · simp only [step, into_reply, hk']
    · simpa using Finset.union_eq_left.mpr hsub

theorem broadcast_insert_idempotent_witness :
    (∃ s' r, step coinsFalse sDup
          (.Message ⟨"c1", "n1", ⟨some 50, none, .Broadcast 5⟩⟩) = .ok (s', [r]) ∧
        s'.messages = sDup.messages ∧ r.body.payload = .BroadcastOk) ∧
    (∃ s', step coinsFalse sDup
          (.Message ⟨"n2", "n1", ⟨none, none, .Gossip {5}⟩⟩) = .ok (s', []) ∧
        s'.messages = sDup.messages) :=
  ⟨broadcast_insert_idempotent.1 coinsFalse sDup
      ⟨"c1", "n1", ⟨some 50, none, .Broadcast 5⟩⟩ 5 rfl (by decide),
   broadcast_insert_idempotent.2 coinsFalse sDup
      ⟨"n2", "n1", ⟨none, none, .Gossip {5}⟩⟩ {5} ∅ rfl (by decide) (by decide)⟩

/-- C5: handling Read emits exactly one ReadOk reply whose messages field
is the current KnownValues set, changing nothing but the counter; and the
concrete run Broadcast(5), Broadcast(7), Read, Read from the empty initial
state answers both Reads with the identical set {5, 7}. -/
theorem read_snapshot :
    (∀ (coins : String → ℕ → Bool) (s : BroadcastNode) (m : Message),
        m.body.payload = .Read →
        ∃ r, step coins s (.Message m) = .ok ({ s with id := s.id + 1 }, [r]) ∧
          r.body.payload = .ReadOk s.messages) ∧
    steps coinsFalse (fromInit "n1" ["n1", "n2"])
        [.Message ⟨"c1", "n1", ⟨some 100, none, .Broadcast 5⟩⟩,
         .Message ⟨"c1", "n1", ⟨some 101, none, .Broadcast 7⟩⟩,
         .Message ⟨"c1", "n1", ⟨some 102, none, .Read⟩⟩,
         .Message ⟨"c1", "n1", ⟨some 103, none, .Read⟩⟩] =
      .ok (⟨"n1", 5, {7, 5}, [("n1", ∅), ("n2", ∅)], []⟩,
           [⟨"n1", "c1", ⟨some 1, some 100, .BroadcastOk⟩⟩,
            ⟨"n1", "c1", ⟨some 2, some 101, .BroadcastOk⟩⟩,
            ⟨"n1", "c1", ⟨some 3, some 102, .ReadOk {7, 5}⟩⟩,
            ⟨"n1", "c1", ⟨some 4, some 103, .ReadOk {7, 5}⟩⟩]) ∧
    ({7, 5} : Finset ℕ) = {5, 7} := by
  refine ⟨?_, ?_, ?_⟩
  · intro coins s m hp
    obtain ⟨src, dst, mid, irt, p⟩ := m
    obtain rfl : p = .Read := hp
    exact ⟨_, rfl, rfl⟩
  · decide
  · decide

theorem read_snapshot_witness :
    ∃ r, step coinsFalse sDup (.Message ⟨"c1", "n1", ⟨some 60, none, .Read⟩⟩) =
        .ok ({ sDup with id := sDup.id + 1 }, [r]) ∧
      r.body.payload = .ReadOk sDup.messages :=
  read_snapshot.1 coinsFalse sDup ⟨"c1", "n1", ⟨some 60, none, .Read⟩⟩ rfl

/-- C6: a Topology assignment containing an entry for this node replaces
the neighborhood with exactly that entry, emits a TopologyOk reply, and
every gossip tick completed afterwards addresses exactly the new neighbor
list, in stored order. -/
theorem topology_replaces_neighborhood (coins : String → ℕ → Bool) (s : BroadcastNode)
    (m : Message) (topo : List (String × List String)) (nbrs : List String)
    (hp : m.body.payload = .Topology topo)
    (hk : lookupAssoc s.node topo = some nbrs) :
    ∃ r, step coins s (.Message m) =
        .ok ({ s with id := s.id + 1, neighborhood := nbrs }, [r]) ∧
      r.body.payload = .TopologyOk ∧
      ∀ (coins' : String → ℕ → Bool) (s'' : BroadcastNode) (out' : List Message),
        step coins' { s with id := s.id + 1, neighborhood := nbrs } .Injected =
          .ok (s'', out') →
        out'.map Message.dst = nbrs := by
  obtain ⟨src, dst, mid, irt, p⟩ := m
  obtain rfl : p = .Topology topo := hp
  have hk' : lookupAssoc s.node topo = some nbrs := hk
  refine ⟨⟨dst, src, ⟨some s.id, mid, .TopologyOk⟩⟩, ?_, rfl, ?_⟩
  · simp only [step, into_reply, hk']
  · intro coins' s'' out' h'
    rw [step] at h'
    split at h'
    · exact absurd h' (by simp)
    next id' msgs ht =>
      obtain ⟨h1, h2⟩ := (by simpa using h' : _ = s'' ∧ msgs = out')
      subst h2
      exact (tickLoop_ok_out _ _ _ _ _ _ _ _ ht).1

theorem topology_replaces_neighborhood_witness :
    ∃ r, step coinsFalse sInit
          (.Message ⟨"c1", "n1", ⟨some 70, none,
             .Topology [("n1", ["n2"]), ("n2", ["n1"])]⟩⟩) =
        .ok ({ sInit with id := sInit.id + 1, neighborhood := ["n2"] }, [r]) ∧
      r.body.payload = .TopologyOk ∧
      ∀ (coins' : String → ℕ → Bool) (s'' : BroadcastNode) (out' : List Message),
        step coins' { sInit with id := sInit.id + 1, neighborhood := ["n2"] } .Injected =
          .ok (s'', out') →
        out'.map Message.dst = ["n2"] :=
  topology_replaces_neighborhood coinsFalse sInit
    ⟨"c1", "n1", ⟨some 70, none, .Topology [("n1", ["n2"]), ("n2", ["n1"])]⟩⟩
    [("n1", ["n2"]), ("n2", ["n1"])] ["n2"] rfl (by decide)

/-- C7: a Topology assignment with no entry for this node's id makes the
step fail with the panic naming that id, and no TopologyOk (nor any other
message) is emitted. -/
theorem topology_missing_self_fatal (coins : String → ℕ → Bool) (s : BroadcastNode)
    (m : Message) (topo : List (String × List String))
    (hp : m.body.payload = .Topology topo)
    (hk : lookupAssoc s.node topo = none) :
    step coins s (.Message m) = .error (.noTopologyEntry s.node) := by
  obtain ⟨src, dst, mid, irt, p⟩ := m
  obtain rfl : p = .Topology topo := hp
  have hk' : lookupAssoc s.node topo = none := hk
  simp only [step, into_reply, hk']

theorem topology_missing_self_fatal_witness :
    step coinsFalse sInit
        (.Message ⟨"c1", "n1", ⟨some 80, none, .Topology [("n2", ["n1"])]⟩⟩) =
      .error (.noTopologyEntry sInit.node) :=
  topology_missing_self_fatal coinsFalse sInit
    ⟨"c1", "n1", ⟨some 80, none, .Topology [("n2", ["n1"])]⟩⟩
    [("n2", ["n1"])] rfl (by decide)

/-- C8: an inbound Gossip(seen) unions seen into KnownValues (and into the
sender slot of NeighborKnowledge) and emits no reply at all; and every
Gossip message produced by the tick handler carries neither a msg id nor
an in_reply_to id. -/
theorem gossip_one_way_no_ids :
    (∀ (coins : String → ℕ → Bool) (s : BroadcastNode) (m : Message)
        (seen ks : Finset ℕ),
        m.body.payload = .Gossip seen →
        lookupAssoc m.src s.known = some ks →
        step coins s (.Message m) =
          .ok (({ s with
                  id := s.id + 1
                  known := updateAssoc m.src (ks ∪ seen) s.known
                  messages := s.messages ∪ seen } : BroadcastNode), [])) ∧
    (∀ (coins : String → ℕ → Bool) (s s' : BroadcastNode) (out : List Message),
        step coins s .Injected = .ok (s', out) →
        ∀ g ∈ out, g.body.id = none ∧ g.body.in_reply_to = none) := by
  constructor
  · intro coins s m seen ks hp hk
    obtain ⟨src, dst, mid, irt, p⟩ := m
    obtain rfl : p = .Gossip seen := hp
    have hk' : lookupAssoc src s.known = some ks := hk
    simp only [step, into_reply, hk']
  · intro coins s s' out h g hg
    rw [step] at h
    split at h
    · exact absurd h (by simp)
    next id' msgs ht =>
      obtain ⟨h1, h2⟩ := (by simpa using h : { s with id := id' } = s' ∧ msgs = out)
      subst h2
      exact ((tickLoop_ok_out _ _ _ _ _ _ _ _ ht).2 g hg).2

theorem gossip_one_way_no_ids_witness :
    step coinsFalse sInit (.Message ⟨"n2", "n1", ⟨none, none, .Gossip {3}⟩⟩) =
      .ok (({ sInit with
              id := sInit.id + 1
              known := updateAssoc (Message.src ⟨"n2", "n1", ⟨none, none, .Gossip {3}⟩⟩)
                         (∅ ∪ {3}) sInit.known
              messages := sInit.messages ∪ {3} } : BroadcastNode), []) :=
  gossip_one_way_no_ids.1 coinsFalse sInit
    ⟨"n2", "n1", ⟨none, none, .Gossip {3}⟩⟩ {3} ∅ rfl (by decide)

/-- C9: in every reachable state, every entry of the NeighborKnowledge map
holds a subset of KnownValues. -/
theorem neighbor_knowledge_subset (s : BroadcastNode) (hr : Reachable s)
    (n : String) (ks : Finset ℕ) (hmem : (n, ks) ∈ s.known) : ks ⊆ s.messages :=
  reachable_known_subset s hr (n, ks) hmem

theorem neighbor_knowledge_subset_witness :
    (∅ : Finset ℕ) ⊆ (fromInit "n1" ["n1", "n2"]).messages :=
  neighbor_knowledge_subset (fromInit "n1" ["n1", "n2"])
    (Reachable.init "n1" ["n1", "n2"]) "n1" ∅ (by decide)

/-- C10: the inclusion probability min(10, L)/L is only ever evaluated at
an element of the pool of size L, so L is at least 1 and the numerator
never exceeds the denominator, and a gossip tick can never fail with the
sampling panic, whatever the state. -/
theorem sampling_never_panics :
    (∀ (coins : ℕ → Bool) (pool : Finset ℕ), ∀ m ∈ pool,
        1 ≤ pool.card ∧ min 10 pool.card ≤ pool.card ∧
          (includeExtra coins pool m).isSome = true) ∧
    (∀ (coins : String → ℕ → Bool) (s : BroadcastNode) (n : String),
        step coins s .Injected ≠ .error (.ratioPanic n)) := by
  constructor
  · intro coins pool m hm
    exact ⟨Finset.card_pos.mpr ⟨m, hm⟩, min_le_right _ _, includeExtra_isSome coins pool m hm⟩
  · intro coins s n h
    rw [step] at h
    split at h
    next e ht =>
      obtain ⟨n', hn'⟩ :=
        tickLoop_error_shape coins s.node s.messages s.known s.neighborhood s.id e ht
      rw [(Except.error.injEq _ _).mp h] at hn'
      exact absurd hn' (by simp)
    next => exact absurd h (by simp)

theorem sampling_never_panics_witness :
    1 ≤ ({3} : Finset ℕ).card ∧ min 10 ({3} : Finset ℕ).card ≤ ({3} : Finset ℕ).card ∧
      (includeExtra (fun _ => false) {3} 3).isSome = true :=
  sampling_never_panics.1 (fun _ => false) {3} 3 (by decide)

end Broadcast
